import Mathlib

/-!
Verification of the rag_tracker paper-processing pipeline.

This file gives a shallow embedding of the core logic of the repository:
the HTML affiliation/keyword extractors, the classifier, the incremental
filter, the pipeline orchestrator (src/paper_processor.py), and the
watermark handling of the email sender (src/email_sender.py).

Modelling conventions:
- An HTML soup is a forest of DOM nodes (tag, class list, attribute list,
  children); text nodes carry their string.  The BeautifulSoup operations
  used by the code (find, find_all, find_next, next_sibling, get_text,
  children, decompose) are implemented over this tree with BeautifulSoup's
  document-order (preorder) semantics.
- Python strings map to Lean String; str.strip() maps to stripping
  whitespace on both ends, str.strip(",") to stripping comma characters on
  both ends, str.split(",") to Lean String.split (both keep empty pieces
  and return one empty piece on the empty string), "x in y" to list-infix
  of the character lists.
- Python dicts keyed by strings map to association lists with
  insert-or-update semantics; Python sets map to insertion-ordered
  duplicate-free lists (only order-insensitive properties are claimed of
  them, since Python set iteration order is unspecified).
- Timezone-aware UTC timestamps map to Int (any linearly ordered time
  axis); file and network I/O are threaded explicitly: the watermark file
  is a value of type Option String, the HTML fetch is a function argument
  returning either an exception marker or a status code with a parsed
  soup.
-/

namespace RagTracker

/-! ## Python string primitives -/

/-- Strip characters satisfying p from both ends of a string
(the common core of Python str.strip() and str.strip(",")). -/
def stripWhile (p : Char → Bool) (s : String) : String :=
  String.mk (((s.toList.dropWhile p).reverse.dropWhile p).reverse)

/-- Python str.strip(): remove surrounding whitespace. -/
def pyStrip (s : String) : String := stripWhile Char.isWhitespace s

/-- Python str.strip(","): remove leading and trailing comma characters. -/
def pyStripComma (s : String) : String := stripWhile (· == ',') s

/-- Python str.split(","): split on commas, keeping empty pieces; the
empty string yields one empty piece.  This equals String.split (by
Batteries' String.split_of_valid), written over the character list so
that it evaluates inside the kernel. -/
def pySplitComma (s : String) : List String :=
  (s.toList.splitOnP (· == ',')).map String.mk

/-- Python " ".join(xs). -/
def joinSpace (xs : List String) : String := String.intercalate " " xs

/-- Python str.lower(): lowercase every character.  This is the same
function as String.toLower (see pyLower_eq_toLower), written over the
character list so that it evaluates inside the kernel. -/
def pyLower (s : String) : String := String.mk (s.toList.map Char.toLower)

/-- Python "needle in hay" on strings: substring containment. -/
def pyIn (needle hay : String) : Bool :=
  decide (needle.toList <:+: hay.toList)

/-- Lexicographic order on character lists by code point: the order Python
uses to compare strings (and the order of Lean's LinearOrder on String). -/
def lexLE : List Char → List Char → Bool
  | [], _ => true
  | _ :: _, [] => false
  | a :: as, b :: bs =>
    if a.toNat < b.toNat then true
    else if b.toNat < a.toNat then false
    else lexLE as bs

/-- Python string comparison a <= b. -/
def pyStrLE (a b : String) : Bool := lexLE a.toList b.toList

/-- Python str.isdigit(): nonempty and every character a digit. -/
def pyIsDigit (s : String) : Bool :=
  !s.toList.isEmpty && s.toList.all Char.isDigit

/-! ## Python dict (string keys) as an association list -/

/-- Python d[k] = v: update the entry in place if the key exists,
otherwise append it. -/
def dictSet (d : List (String × String)) (k v : String) : List (String × String) :=
  if d.any (fun e => e.1 == k) then
    d.map (fun e => if e.1 == k then (k, v) else e)
  else d ++ [(k, v)]

/-- Python d.get(k, dflt). -/
def dictGet (d : List (String × String)) (k dflt : String) : String :=
  match d.find? (fun e => e.1 == k) with
  | some e => e.2
  | none => dflt

/-! ## DOM model -/

/-- A DOM node: either a navigable string or an element with a tag name,
a class list, an attribute list and children. -/
inductive Node where
  | text (s : String)
  | elem (tag : String) (classes : List String) (attrs : List (String × String)) (children : List Node)

/-- A parsed document (BeautifulSoup object): the forest of top-level nodes. -/
abbrev Soup := List Node

/-- Direct children of a node (BeautifulSoup .children). -/
def Node.childNodes : Node → List Node
  | .text _ => []
  | .elem _ _ _ cs => cs

-- BeautifulSoup get_text(): concatenation of all descendant strings.
mutual
def Node.get_text : Node → String
  | .text s => s
  | .elem _ _ _ cs => getTextList cs
def getTextList : List Node → String
  | [] => ""
  | c :: cs => c.get_text ++ getTextList cs
end

-- Preorder flattening: a node followed by all its descendants in
-- document order.
mutual
def flatN : Node → List Node
  | .text s => [.text s]
  | .elem t c a cs => .elem t c a cs :: flatF cs
def flatF : List Node → List Node
  | [] => []
  | n :: ns => flatN n ++ flatF ns
end

-- Document-order enumeration of a forest, pairing each node with its
-- next sibling (if any): the data needed for BeautifulSoup find,
-- find_all, find_next and next_sibling.
mutual
def entriesN : Node → Option Node → List (Node × Option Node)
  | .text s, sib => [(.text s, sib)]
  | .elem t c a cs, sib => (.elem t c a cs, sib) :: entriesF cs
def entriesF : List Node → List (Node × Option Node)
  | [] => []
  | n :: ns => entriesN n ns.head? ++ entriesF ns
end

/-- Does a node match soup.find(tag, class_=cls)? -/
def matchesTagClass (tag cls : String) : Node → Bool
  | .elem t cs _ _ => t == tag && cs.contains cls
  | .text _ => false

/-- Does a node match soup.find(tag, attrs={name: value})? -/
def matchesTagAttr (tag name value : String) : Node → Bool
  | .elem t _ attrList _ => t == tag && attrList.any (fun a => a.1 == name && a.2 == value)
  | .text _ => false

/-- Element attribute lookup with default (BeautifulSoup .get(name, dflt)). -/
def attrGet (n : Node) (name dflt : String) : String :=
  match n with
  | .text _ => dflt
  | .elem _ _ attrList _ => dictGet attrList name dflt

/-- BeautifulSoup find over a whole document: first node of the forest, in
document order, satisfying the predicate. -/
def soupFind (soup : Soup) (p : Node → Bool) : Option Node :=
  (flatF soup).find? p

/-- Split a list at the first element satisfying p, returning that element
together with everything after it. -/
def breakAt (p : α → Bool) : List α → Option (α × List α)
  | [] => none
  | x :: xs => if p x then some (x, xs) else breakAt p xs

/-! ## Data model -/

/-- One author of one paper (the dicts built by _extract_author_info). -/
structure AuthorInfo where
  name : String
  email : String
  aff_numbers : List String
  affiliations : List String
deriving DecidableEq, Inhabited

/-- The paper_details dict returned alongside the author list. -/
structure PaperDetails where
  authors : List String
  affiliations : List String
deriving DecidableEq, Inhabited

/-- One fetched publication, restricted to the fields the processor reads
or writes (title, paper_id, date_dt, and the enrichment fields). -/
structure Paper where
  paper_id : String
  title : String
  date_dt : Int
  authors_info : List AuthorInfo
  keywords : List String
  affiliations : List String
  is_org : Bool
  is_survey : Bool
deriving DecidableEq, Inhabited

/-! ## Affiliation Extractor (_extract_author_info) -/

/-- The affiliation scan of _extract_author_info (lines 137-146): walk the
document tail, and for each br.ltx_break among the next `remaining`
entries (the author block's descendants), find the next sup.ltx_sup in
document order (the whole rest of the document, as BeautifulSoup
find_next does); its stripped text is the marker, and if the sup's next
sibling is a string whose stripped form is nonempty, record it in the
affiliation map. -/
def aff_scan : List (Node × Option Node) → Nat → List (String × String) →
    List (String × String)
  | _, 0, d => d
  | [], _ + 1, d => d
  | e :: rest, r + 1, d =>
    let d :=
      if matchesTagClass "br" "ltx_break" e.1 then
        match rest.find? (fun e2 => matchesTagClass "sup" "ltx_sup" e2.1) with
        | some supE =>
          let aff_num := pyStrip supE.1.get_text
          match supE.2 with
          | some (.text nextText) =>
            let aff_text := pyStrip nextText
            if aff_text ≠ "" then dictSet d aff_num aff_text else d
          | _ => d
        | none => d
      else d
    aff_scan rest r d

/-- Build one author dict (lines 165-170 and 183-188). -/
def mkAuthor (affMap : List (String × String)) (current_name : String)
    (current_affs : List String) : AuthorInfo :=
  { name := pyStrip current_name
    email := ""
    aff_numbers := current_affs
    affiliations := current_affs.map (fun num => dictGet affMap num "") }

/-- The child walk over the ltx_personname span (lines 158-189): a string
child whose strip().strip(",") is nonempty closes the previous author (if
one was open) and opens a new one; a sup.ltx_sup child whose stripped
digit text accumulates an affiliation marker; at the end the open author,
if any, is appended. -/
def author_scan (affMap : List (String × String)) :
    List Node → String → List String → List AuthorInfo → List AuthorInfo
  | [], current_name, current_affs, authors =>
    if current_name ≠ "" then authors ++ [mkAuthor affMap current_name current_affs]
    else authors
  | el :: rest, current_name, current_affs, authors =>
    match el with
    | .text s =>
      let txt := pyStripComma (pyStrip s)
      if txt ≠ "" then
        if current_name ≠ "" then
          author_scan affMap rest txt []
            (authors ++ [mkAuthor affMap current_name current_affs])
        else
          author_scan affMap rest txt current_affs authors
      else
        author_scan affMap rest current_name current_affs authors
    | .elem t cls _ _ =>
      if t == "sup" && cls.contains "ltx_sup" then
        let num := pyStrip (Node.get_text el)
        if pyIsDigit num then
          author_scan affMap rest current_name (current_affs ++ [num]) authors
        else
          author_scan affMap rest current_name current_affs authors
      else
        author_scan affMap rest current_name current_affs authors

/-- First entry matching div.ltx_authors, with the document tail after it. -/
def authorBlockSplit (soup : Soup) :
    Option ((Node × Option Node) × List (Node × Option Node)) :=
  breakAt (fun e => matchesTagClass "div" "ltx_authors" e.1) (entriesF soup)

/-- The affiliation map built by _extract_author_info for a document
(empty when there is no author block). -/
def affiliations_map (soup : Soup) : List (String × String) :=
  match authorBlockSplit soup with
  | none => []
  | some (be, tail) => aff_scan tail ((flatN be.1).length - 1) []

/-- Sort key for Python sorted(affiliations_map.items()): lexicographic on
the (key, value) string pair. -/
def pairLE (a b : String × String) : Bool :=
  if a.1 = b.1 then pyStrLE a.2 b.2 else pyStrLE a.1 b.1

/-- _extract_author_info (lines 125-207): author list plus paper details.
No author block yields ([], empty details); the body of the source
function is exception-free in this embedding (every partial DOM or dict
operation is total here), matching the enclosing try/except that converts
any internal error to the same empty result. -/
def extract_author_info (soup : Soup) : List AuthorInfo × PaperDetails :=
  match authorBlockSplit soup with
  | none => ([], { authors := [], affiliations := [] })
  | some (be, tail) =>
    let blockDesc := (flatN be.1).length - 1
    let affMap := aff_scan tail blockDesc []
    let authors :=
      match (tail.take blockDesc).find?
          (fun e => matchesTagClass "span" "ltx_personname" e.1) with
      | none => []
      | some pe => author_scan affMap pe.1.childNodes "" [] []
    let details : PaperDetails :=
      { authors := authors.map (fun a =>
          if !a.aff_numbers.isEmpty then
            a.name ++ "[" ++ String.intercalate "," a.aff_numbers ++ "]"
          else a.name)
        affiliations := (List.insertionSort (fun x y => pairLE x y = true) affMap).map
          (fun kv => "[" ++ kv.1 ++ "] " ++ kv.2) }
    (authors, details)

/-! ## Keyword Extractor (_extract_keywords) -/

-- decompose of every h6/strong descendant (lines 228-229): remove those
-- elements, subtrees included, from the tree.
mutual
def pruneN (tags : List String) : Node → Node
  | .text s => .text s
  | .elem t c a cs => .elem t c a (pruneF tags cs)
def pruneF (tags : List String) : List Node → List Node
  | [] => []
  | .text s :: ns => .text s :: pruneF tags ns
  | .elem t c a cs :: ns =>
    if tags.contains t then pruneF tags ns
    else pruneN tags (.elem t c a cs) :: pruneF tags ns
end

/-- _extract_keywords (lines 220-238): split the keywords div's text
(headers removed) on commas and strip each piece; only when the div is
missing, fall back to the meta keywords tag, processed the same way;
finally discard empty strings. -/
def extract_keywords (soup : Soup) : List String :=
  let keywords :=
    match soupFind soup (matchesTagClass "div" "ltx_keywords") with
    | some kwDiv =>
      (pySplitComma (Node.get_text (pruneN ["h6", "strong"] kwDiv))).map pyStrip
    | none => []
  let keywords :=
    if keywords.isEmpty then
      match soupFind soup (matchesTagAttr "meta" "name" "keywords") with
      | some metaKw => (pySplitComma (attrGet metaKw "content" "")).map pyStrip
      | none => keywords
    else keywords
  keywords.filter (fun k => k ≠ "")

/-! ## Classifier (_check_if_org, _check_if_survey) -/

/-- The inline organization test of process_papers line 82: some major
organization occurs case-insensitively in the space-joined affiliations. -/
def org_check (major_orgs : List String) (affiliations : List String) : Bool :=
  major_orgs.any (fun org => pyIn (pyLower org) (pyLower (joinSpace affiliations)))

/-- _check_if_org (lines 106-110): same test with an explicit early false
on an empty affiliation list. -/
def check_if_org (major_orgs : List String) (affiliations : List String) : Bool :=
  if affiliations.isEmpty then false
  else major_orgs.any (fun org => pyIn (pyLower org) (pyLower (joinSpace affiliations)))

/-- The fixed survey term list (line 114). -/
def survey_terms : List String := ["survey", "review", "overview", "systematic"]

/-- _check_if_survey (lines 112-116). -/
def check_if_survey (title : String) (keywords : List String) : Bool :=
  let text := pyLower (title ++ " " ++ joinSpace keywords)
  survey_terms.any (fun term => pyIn term text)

/-! ## Incremental Filter (process_papers lines 37-41) -/

/-- The current_papers loop: keep papers strictly newer than the
watermark, appending in input order. -/
def filterRecent (last_processed_date : Int) (papers : List Paper) : List Paper :=
  papers.foldl (fun acc p => if p.date_dt > last_processed_date then acc ++ [p] else acc) []

/-! ## Pipeline Orchestrator (process_papers) -/

/-- Outcome of requests.get on a paper's HTML url: either an exception
(network failure; also standing for any exception raised inside the
per-paper try block before the soup is used) or a response with a status
code and, for the embedding, the already-parsed soup of its body. -/
inductive FetchResult where
  | exn
  | resp (status : Nat) (body : Soup)

/-- The default metadata written at the top of the per-paper try block
(lines 52-56). -/
def setDefaults (p : Paper) : Paper :=
  { p with authors_info := [], keywords := [], affiliations := [],
           is_org := false, is_survey := false }

/-- Python set.add on the insertion-ordered duplicate-free list model. -/
def setAdd (s : List String) (x : String) : List String :=
  if x ∈ s then s else s ++ [x]

/-- all_affiliations (lines 73-76): the union of all authors' affiliation
lists, deduplicated through a set. -/
def dedup_union (xss : List (List String)) : List String :=
  xss.foldl (fun s l => l.foldl setAdd s) []

/-- The body of the per-paper loop of process_papers (lines 49-100):
defaults, fetch, and on a 200 response the extraction, affiliation union
and classification; any other outcome leaves the defaults in place. -/
def enrich (fetch : String → FetchResult) (major_orgs : List String) (paper : Paper) :
    Paper :=
  let p := setDefaults paper
  match fetch p.paper_id with
  | .exn => p
  | .resp status soup =>
    if status = 200 then
      let authors_info := (extract_author_info soup).1
      let keywords := extract_keywords soup
      let p :=
        if !authors_info.isEmpty then
          { p with authors_info := authors_info
                   affiliations := dedup_union (authors_info.map (·.affiliations)) }
        else p
      let p := if !keywords.isEmpty then { p with keywords := keywords } else p
      let p := { p with is_org := org_check major_orgs p.affiliations }
      { p with is_survey := check_if_survey p.title keywords }
    else p

/-- The accumulation loop of process_papers (lines 45-100): each paper is
enriched and appended; the counters are bumped when the corresponding
flag was set (in the source the bump sits inside the success branch, but
on every other branch the flag is false, so the guard below is
equivalent). -/
def processLoop (fetch : String → FetchResult) (major_orgs : List String) :
    List Paper → List Paper → Nat → Nat → List Paper × Nat × Nat
  | [], acc, org_count, survey_count => (acc, org_count, survey_count)
  | paper :: rest, acc, org_count, survey_count =>
    let q := enrich fetch major_orgs paper
    processLoop fetch major_orgs rest (acc ++ [q])
      (org_count + if q.is_org then 1 else 0)
      (survey_count + if q.is_survey then 1 else 0)

/-- The composite sort key of line 102, as a boolean total preorder:
organization flag descending, then survey flag descending, then title
ascending. -/
def orgKey (p : Paper) : Nat := if p.is_org then 0 else 1

/-- Survey component of the sort key. -/
def surveyKey (p : Paper) : Nat := if p.is_survey then 0 else 1

/-- paper a sorts no later than paper b under the key
(-is_org, -is_survey, title). -/
def paper_le (a b : Paper) : Bool :=
  decide (orgKey a < orgKey b) ||
    (decide (orgKey a = orgKey b) &&
      (decide (surveyKey a < surveyKey b) ||
        (decide (surveyKey a = surveyKey b) && pyStrLE a.title b.title)))

/-- list.sort(key=lambda x: (-x.is_org, -x.is_survey, x.title)): a stable
ascending sort under paper_le. -/
def sort_papers (ps : List Paper) : List Paper :=
  List.insertionSort (fun a b => paper_le a b = true) ps

/-- process_papers (lines 32-104), with the watermark read from
last_email.txt (lines 34 and 18-30) passed in explicitly and the HTML
fetch abstracted as a function: filter, enrich with counters, sort. -/
def process_papers (fetch : String → FetchResult) (major_orgs : List String)
    (last_processed_date : Int) (papers : List Paper) : List Paper × Nat × Nat :=
  let current_papers := filterRecent last_processed_date papers
  let r := processLoop fetch major_orgs current_papers [] 0 0
  (sort_papers r.1, r.2.1, r.2.2)

/-- A paper record failed its HTML enrichment: requests.get raised, or the
response had a non-success status code. -/
def fetchFailed (fetch : String → FetchResult) (p : Paper) : Prop :=
  fetch p.paper_id = .exn ∨
    ∃ status soup, fetch p.paper_id = .resp status soup ∧ status ≠ 200

/-! ## EmailSender watermark handling (src/email_sender.py)

send_daily_update iterates the markdown files sorted by name; per file it
converts to HTML (a conversion failure skips the file), sends with up to
MAX_RETRIES attempts (re-raising after the last failure), and on success
calls update_last_email_date, which overwrites the last_email.txt file
with today's date.  The file content is modeled as an Option String
(none when missing), conversion and the per-attempt send outcome as
function arguments. -/

/-- MAX_RETRIES (email_sender.py line 98). -/
def MAX_RETRIES : Nat := 5

/-- The retry loop (lines 154-171): the send succeeds if any of the
MAX_RETRIES attempts succeeds; otherwise the last exception is re-raised. -/
def send_with_retry (attempts : Nat → Bool) : Bool :=
  (List.range MAX_RETRIES).any attempts

/-- Result of a run of send_daily_update: the final content of
last_email.txt and whether the call raised. -/
structure SendOutcome where
  lastEmailFile : Option String
  raised : Bool
deriving DecidableEq

/-- The per-file loop of send_daily_update (lines 114-174) over the
already-sorted path list: skip on conversion failure, raise when the
retries are exhausted, and after each successful send overwrite the
watermark file with today's date (update_last_email_date, lines 49-59). -/
def sendLoop (convert : String → Option String) (sendAttempt : String → Nat → Bool)
    (today : String) : List String → Option String → SendOutcome
  | [], file => ⟨file, false⟩
  | p :: ps, file =>
    match convert p with
    | none => sendLoop convert sendAttempt today ps file
    | some _ =>
      if send_with_retry (sendAttempt p) then
        sendLoop convert sendAttempt today ps (some today)
      else ⟨file, true⟩

/-- send_daily_update (lines 96-178): sort the paths by name, then run the
per-file loop. -/
def send_daily_update (convert : String → Option String)
    (sendAttempt : String → Nat → Bool) (today : String)
    (md_paths : List String) (file : Option String) : SendOutcome :=
  sendLoop convert sendAttempt today
    (List.insertionSort (fun a b : String => pyStrLE a b = true) md_paths) file

/-! ## Concrete inputs used by the witnesses and counterexamples -/

/-- A document with no ltx_authors block. -/
def c1Soup : Soup := [.elem "p" [] [] [.text "hello world"]]

/-- A document with authors Alice (marker 1, resolved to MIT) and Bob
(marker 2, absent from the affiliation map). -/
def wSoup : Soup :=
  [ .elem "div" ["ltx_authors"] []
      [ .elem "span" ["ltx_personname"] []
          [ .text "Alice "
          , .elem "sup" ["ltx_sup"] [] [.text "1"]
          , .text ", Bob"
          , .elem "sup" ["ltx_sup"] [] [.text "2"] ]
      , .elem "br" ["ltx_break"] [] []
      , .elem "sup" ["ltx_sup"] [] [.text "1"]
      , .text " MIT" ] ]

/-- A document whose author text is " a, , " and whose affiliation text is
" MIT, ": both keep a trailing comma after the code's trimming. -/
def c9Soup : Soup :=
  [ .elem "div" ["ltx_authors"] []
      [ .elem "span" ["ltx_personname"] []
          [ .text " a, , "
          , .elem "sup" ["ltx_sup"] [] [.text "1"] ]
      , .elem "br" ["ltx_break"] [] []
      , .elem "sup" ["ltx_sup"] [] [.text "1"]
      , .text " MIT, " ] ]

/-- A document whose keywords region contains "A, B, C". -/
def kwSoup : Soup :=
  [ .elem "div" ["ltx_keywords"] []
      [ .elem "h6" [] [] [.text "Keywords:"], .text "A, B, C" ] ]

/-- A document with an empty keywords region and a meta keywords tag. -/
def kwSoup2 : Soup :=
  [ .elem "div" ["ltx_keywords"] [] [.text "  "]
  , .elem "meta" [] [("name", "keywords"), ("content", "A,B")] [] ]

/-- A document with only a meta keywords tag. -/
def kwSoup3 : Soup :=
  [ .elem "meta" [] [("name", "keywords"), ("content", " A , B ")] [] ]

/-- A bare paper record with the given identifier, title and date. -/
def mkPaper (pid : String) (title : String) (d : Int) : Paper :=
  { paper_id := pid, title := title, date_dt := d, authors_info := [],
    keywords := [], affiliations := [], is_org := false, is_survey := false }

/-- The three papers of the spec's sort-order example. -/
def zetaPaper : Paper := mkPaper "z" "Zeta" 0

/-- Organization-flagged paper of the sort-order example. -/
def alphaPaper : Paper := { mkPaper "a" "Alpha" 0 with is_org := true }

/-- Survey-flagged paper of the sort-order example. -/
def betaPaper : Paper := { mkPaper "b" "Beta" 0 with is_survey := true }

/-- A fetch in which paper "a" hits a network exception, paper "c" gets a
404, and every other paper gets a 200 with the Alice/Bob document. -/
def wFetch : String → FetchResult := fun pid =>
  if pid = "a" then .exn
  else if pid = "c" then .resp 404 []
  else .resp 200 wSoup

/-- A conversion that always succeeds (markdown to HTML). -/
def wConvert : String → Option String := fun _ => some "<html>"

/-- A send in which every attempt for file "a" succeeds and every attempt
for any other file fails. -/
def wSendAttempt : String → Nat → Bool := fun p _ => p == "a"

/-- A send in which every attempt fails. -/
def failSendAttempt : String → Nat → Bool := fun _ _ => false

/-! ## Helper lemmas -/

theorem stripWhile_eq_rdropWhile (p : Char → Bool) (s : String) :
    stripWhile p s = String.mk (List.rdropWhile p (s.toList.dropWhile p)) := rfl

theorem toList_mk (l : List Char) : (String.mk l).toList = l := rfl

/-- Core of strip-idempotence: a list already stripped on both ends has
nothing left for a second front strip to remove. -/
theorem dropWhile_rdropWhile_dropWhile (p : Char → Bool) (l : List Char) :
    (List.rdropWhile p (l.dropWhile p)).dropWhile p
      = List.rdropWhile p (l.dropWhile p) := by
  rcases hm : List.rdropWhile p (l.dropWhile p) with _ | ⟨x, m⟩
  · simp
  · have hpfx : List.rdropWhile p (l.dropWhile p) <+: l.dropWhile p :=
      List.rdropWhile_prefix p (l.dropWhile p)
    rw [hm] at hpfx
    obtain ⟨u, hu⟩ := hpfx
    have hne : l.dropWhile p ≠ [] := by
      rw [← hu]; simp
    have hx : p ((l.dropWhile p).head hne) = false := List.head_dropWhile_not p l hne
    have hhead : (l.dropWhile p).head hne = x := by
      have h1 : (l.dropWhile p).head? = some x := by rw [← hu]; rfl
      have h2 := List.head?_eq_head (l := l.dropWhile p) hne
      rw [h1] at h2
      exact (Option.some.inj h2).symm
    rw [hhead] at hx
    simp [List.dropWhile_cons, hx]

/-- Both-ends stripping is idempotent. -/
theorem stripWhile_idem (p : Char → Bool) (s : String) :
    stripWhile p (stripWhile p s) = stripWhile p s := by
  rw [stripWhile_eq_rdropWhile, stripWhile_eq_rdropWhile, toList_mk,
    dropWhile_rdropWhile_dropWhile, List.rdropWhile_idempotent]

theorem pyStrip_idem (s : String) : pyStrip (pyStrip s) = pyStrip s :=
  stripWhile_idem _ s

theorem pyStrip_empty : pyStrip "" = "" := rfl

theorem breakAt_eq_none {p : α → Bool} {l : List α} :
    breakAt p l = none ↔ ∀ x ∈ l, p x = false := by
  induction l with
  | nil => simp [breakAt]
  | cons x xs ih =>
    by_cases h : p x
    · simp [breakAt, h]
    · rw [show breakAt p (x :: xs) = breakAt p xs by simp [breakAt, h]]
      rw [ih]
      constructor
      · intro hall y hy
        rcases List.mem_cons.mp hy with hy | hy
        · subst hy; exact Bool.eq_false_iff.mpr h
        · exact hall y hy
      · intro hall y hy; exact hall y (List.mem_cons_of_mem x hy)

theorem mem_dictSet {d : List (String × String)} {k v : String} {kv : String × String}
    (h : kv ∈ dictSet d k v) : kv ∈ d ∨ kv = (k, v) := by
  unfold dictSet at h
  split at h
  · rcases List.mem_map.mp h with ⟨e, he, heq⟩
    by_cases hk : e.1 == k
    · right; rw [← heq]; simp [hk]
    · left; rw [← heq]; simpa [hk] using he
  · rcases List.mem_append.mp h with h | h
    · exact Or.inl h
    · right; simpa using h

theorem dictGet_cases (d : List (String × String)) (k dflt : String) :
    dictGet d k dflt = dflt ∨ ∃ kv ∈ d, dictGet d k dflt = kv.2 := by
  unfold dictGet
  rcases hf : d.find? (fun e => e.1 == k) with _ | kv
  · rw [hf]
    exact Or.inl rfl
  · rw [hf]
    exact Or.inr ⟨kv, List.mem_of_find?_eq_some hf, rfl⟩

theorem dictGet_of_not_mem {d : List (String × String)} {k : String} (dflt : String)
    (h : ∀ kv ∈ d, kv.1 ≠ k) : dictGet d k dflt = dflt := by
  unfold dictGet
  rw [List.find?_eq_none.mpr (fun kv hkv => by simpa using h kv hkv)]

/-- Every value of the map built by the affiliation scan is a stripped
string, provided every value of the starting map is. -/
theorem aff_scan_values (P : String → Prop) (hP : ∀ s, P (pyStrip s)) :
    ∀ (tail : List (Node × Option Node)) (r : Nat) (d : List (String × String)),
      (∀ kv ∈ d, P kv.2) → ∀ kv ∈ aff_scan tail r d, P kv.2 := by
  intro tail
  induction tail with
  | nil =>
    intro r d hd kv hkv
    cases r with
    | zero => exact hd kv hkv
    | succ n => exact hd kv hkv
  | cons e rest ih =>
    intro r d hd kv hkv
    cases r with
    | zero => exact hd kv hkv
    | succ n =>
      simp only [aff_scan] at hkv
      refine ih n _ ?_ kv hkv
      intro kv2 hkv2
      repeat' split at hkv2
      all_goals
        first
          | exact hd kv2 hkv2
          | (rcases mem_dictSet hkv2 with h | h
             · exact hd kv2 h
             · rw [h]; exact hP _)

/-- Invariant transfer through the author state machine: if the invariant
holds of every author the machine can emit and of the starting
accumulator, it holds of every author in the result. -/
theorem author_scan_forall (affMap : List (String × String)) (P : AuthorInfo → Prop)
    (hmk : ∀ nm affs, P (mkAuthor affMap nm affs)) :
    ∀ (children : List Node) (nm : String) (affs : List String)
      (acc : List AuthorInfo), (∀ a ∈ acc, P a) →
      ∀ a ∈ author_scan affMap children nm affs acc, P a := by
  intro children
  induction children with
  | nil =>
    intro nm affs acc hacc a ha
    unfold author_scan at ha
    split at ha
    · rcases List.mem_append.mp ha with h | h
      · exact hacc a h
      · rw [List.mem_singleton.mp h]; exact hmk nm affs
    · exact hacc a ha
  | cons el rest ih =>
    intro nm affs acc hacc a ha
    unfold author_scan at ha
    match el with
    | .text s =>
      simp only at ha
      split at ha
      · split at ha
        · refine ih _ _ _ ?_ a ha
          intro b hb
          rcases List.mem_append.mp hb with h | h
          · exact hacc b h
          · rw [List.mem_singleton.mp h]; exact hmk nm affs
        · exact ih _ _ _ hacc a ha
      · exact ih _ _ _ hacc a ha
    | .elem t cls at_ cs =>
      simp only at ha
      split at ha
      · split at ha
        · exact ih _ _ _ hacc a ha
        · exact ih _ _ _ hacc a ha
      · exact ih _ _ _ hacc a ha

/-- The author list returned by the extractor is either empty or the run
of the state machine over some personname span, against the document's
affiliation map. -/
theorem extract_authors_cases (soup : Soup) :
    (extract_author_info soup).1 = [] ∨
    ∃ pe : Node × Option Node,
      (extract_author_info soup).1 =
        author_scan (affiliations_map soup) pe.1.childNodes "" [] [] := by
  unfold extract_author_info affiliations_map
  rcases h : authorBlockSplit soup with _ | ⟨be, tail⟩
  · left; rfl
  · rcases hf : (tail.take ((flatN be.1).length - 1)).find?
        (fun e => matchesTagClass "span" "ltx_personname" e.1) with _ | pe
    · left
      simp only [hf]
    · right
      refine ⟨pe, ?_⟩
      simp only [hf]

/-- Every value stored in the affiliation map is whitespace-stripped. -/
theorem affiliations_map_values (soup : Soup) :
    ∀ kv ∈ affiliations_map soup, pyStrip kv.2 = kv.2 := by
  unfold affiliations_map
  rcases hb : authorBlockSplit soup with _ | ⟨be, tail⟩
  · intro kv hkv; exact absurd hkv (List.not_mem_nil kv)
  · exact aff_scan_values (fun v => pyStrip v = v) pyStrip_idem tail _ []
      (fun kv hkv => absurd hkv (List.not_mem_nil kv))

/-! ## Claim theorems -/

/-- C1: for every parsed HTML document in which no author block
(div.ltx_authors) occurs, _extract_author_info returns the empty author
list and empty paper details; in this total embedding every internal
partial operation of the source body is already defined on all inputs, so
the function never fails, matching the enclosing try/except that converts
any internal error to the same empty result. -/
theorem c1_no_author_block (soup : Soup)
    (h : ∀ e ∈ entriesF soup, matchesTagClass "div" "ltx_authors" e.1 = false) :
    extract_author_info soup = ([], { authors := [], affiliations := [] }) := by
  have hb : authorBlockSplit soup = none := breakAt_eq_none.mpr h
  unfold extract_author_info
  rw [hb]

/-- Witness for C1 at a concrete document with no author block. -/
theorem c1_no_author_block_witness :
    extract_author_info c1Soup = ([], { authors := [], affiliations := [] }) :=
  c1_no_author_block c1Soup (by decide)

/-- C2: every author entry has aff_numbers and affiliations of equal
length; the affiliations are exactly the markers resolved through the
affiliation map with empty-string default, so a marker absent from the
map keeps its slot as the empty string. -/
theorem c2_parallel_affiliations (soup : Soup) :
    ∀ a ∈ (extract_author_info soup).1,
      a.aff_numbers.length = a.affiliations.length ∧
      a.affiliations =
        a.aff_numbers.map (fun num => dictGet (affiliations_map soup) num "") ∧
      ∀ i, i < a.aff_numbers.length →
        (∀ kv ∈ affiliations_map soup, kv.1 ≠ a.aff_numbers.getD i "") →
        a.affiliations.getD i "" = "" := by
  intro a ha
  rcases extract_authors_cases soup with h | ⟨pe, h⟩
  · rw [h] at ha; cases ha
  · rw [h] at ha
    refine author_scan_forall (affiliations_map soup)
      (fun b => b.aff_numbers.length = b.affiliations.length ∧
        b.affiliations =
          b.aff_numbers.map (fun num => dictGet (affiliations_map soup) num "") ∧
        ∀ i, i < b.aff_numbers.length →
          (∀ kv ∈ affiliations_map soup, kv.1 ≠ b.aff_numbers.getD i "") →
          b.affiliations.getD i "" = "")
      ?_ pe.1.childNodes "" [] []
      (fun b hb => absurd hb (List.not_mem_nil b)) a ha
    intro nm affs
    refine ⟨by simp [mkAuthor], rfl, ?_⟩
    intro i hi hnone
    have hi1 : i < affs.length := hi
    have hi2 : i < (affs.map
        (fun num => dictGet (affiliations_map soup) num "")).length := by
      simpa using hi1
    have hmap : (mkAuthor (affiliations_map soup) nm affs).affiliations.getD i ""
        = dictGet (affiliations_map soup) (affs.getD i "") "" := by
      show (affs.map (fun num => dictGet (affiliations_map soup) num "")).getD i "" = _
      rw [List.getD_eq_getElem _ _ hi2, List.getElem_map,
        List.getD_eq_getElem _ _ hi1]
    rw [hmap]
    exact dictGet_of_not_mem _ hnone

/-- Witness for C2 at the Alice/Bob document: Bob's marker list ["2"] and
affiliation list have the same length, and since "2" is absent from the
affiliation map his affiliation slot holds the empty string. -/
theorem c2_parallel_affiliations_witness :
    ((extract_author_info wSoup).1.getD 1 default).aff_numbers.length
        = ((extract_author_info wSoup).1.getD 1 default).affiliations.length ∧
    ((extract_author_info wSoup).1.getD 1 default).affiliations.getD 0 "" = "" := by
  have h := c2_parallel_affiliations wSoup
    ((extract_author_info wSoup).1.getD 1 default) (by decide)
  exact ⟨h.1, h.2.2 0 (by decide) (by decide)⟩

/-- C9 counterexample: with author text " a, , " and affiliation text
" MIT, ", the stored name is "a," and the stored affiliation is "MIT,",
both keeping a trailing comma, so comma trimming is not applied to the
stored strings as the claim states (for affiliations it is never applied;
for names the final whitespace strip can re-expose a comma). -/
theorem c9_counterexample :
    (extract_author_info c9Soup).1.map (fun a => (a.name, a.affiliations))
        = [("a,", ["MIT,"])] ∧
    pyStripComma "MIT," ≠ "MIT," ∧ pyStripComma "a," ≠ "a," :=
  ⟨rfl, by decide, by decide⟩

/-- C9 (amended): every stored author name and every stored affiliation
text is trimmed of surrounding whitespace (stripping again changes
nothing); names additionally undergo one comma-strip pass between two
whitespace strips, which does not guarantee the absence of a trailing
comma, and affiliation texts are not comma-stripped at all. -/
theorem c9_trimming (soup : Soup) :
    ∀ a ∈ (extract_author_info soup).1,
      pyStrip a.name = a.name ∧ ∀ aff ∈ a.affiliations, pyStrip aff = aff := by
  intro a ha
  rcases extract_authors_cases soup with h | ⟨pe, h⟩
  · rw [h] at ha; cases ha
  · rw [h] at ha
    refine author_scan_forall (affiliations_map soup)
      (fun b => pyStrip b.name = b.name ∧ ∀ aff ∈ b.affiliations, pyStrip aff = aff)
      ?_ pe.1.childNodes "" [] []
      (fun b hb => absurd hb (List.not_mem_nil b)) a ha
    intro nm affs
    constructor
    · exact pyStrip_idem nm
    · intro aff haff
      rcases List.mem_map.mp haff with ⟨num, _, heq⟩
      rcases dictGet_cases (affiliations_map soup) num "" with hc | ⟨kv, hkv, hc⟩
      · rw [← heq, hc]; rfl
      · rw [← heq, hc]
        exact affiliations_map_values soup kv hkv

/-- Witness for C9 (amended) at the Alice/Bob document: Alice's stored
name and affiliation are stable under whitespace stripping. -/
theorem c9_trimming_witness :
    pyStrip ((extract_author_info wSoup).1.getD 0 default).name
        = ((extract_author_info wSoup).1.getD 0 default).name ∧
    pyStrip "MIT" = "MIT" := by
  have h := c9_trimming wSoup ((extract_author_info wSoup).1.getD 0 default) (by decide)
  exact ⟨h.1, h.2 "MIT" (by decide)⟩

/-- The kernel-computable lowercase agrees with String.toLower. -/
theorem pyLower_eq_toLower (s : String) : pyLower s = s.toLower := by
  show pyLower s = String.map Char.toLower s
  rw [String.map_eq]
  rfl

theorem toList_pyLower (s : String) : (pyLower s).toList = s.toList.map Char.toLower := rfl

theorem toList_ne_nil {s : String} (h : s ≠ "") : s.toList ≠ [] :=
  fun hl => h (String.ext hl)

theorem pyLower_toList_ne_nil {s : String} (h : s ≠ "") : (pyLower s).toList ≠ [] := by
  rw [toList_pyLower]
  simpa using toList_ne_nil h

/-- pyIn with a nonempty needle never matches inside the empty string. -/
theorem pyIn_empty_hay {needle hay : String} (h : (pyLower needle).toList ≠ [])
    (hhay : hay.toList = []) : pyIn (pyLower needle) hay = false := by
  unfold pyIn
  rw [hhay]
  exact decide_eq_false (fun hin => h (List.infix_nil.mp hin))

/-- C3: the two classification predicates of the processor.  The
organization flag holds exactly when some configured organization name
occurs case-insensitively in the space-joined affiliation strings (false
on an empty affiliation list, both through the guarded _check_if_org and
through the inline expression of process_papers, which agree); the survey
flag holds exactly when one of the four survey terms occurs
case-insensitively in the title-plus-keywords text.  Both are plain
functions of their arguments. -/
theorem c3_classifier (major_orgs : List String) (affiliations : List String)
    (title : String) (keywords : List String)
    (horgs : ∀ org ∈ major_orgs, org ≠ "") :
    (check_if_org major_orgs affiliations = true ↔
      ∃ org ∈ major_orgs,
        (pyLower org).toList <:+: (pyLower (joinSpace affiliations)).toList) ∧
    check_if_org major_orgs [] = false ∧
    check_if_org major_orgs affiliations = org_check major_orgs affiliations ∧
    (check_if_survey title keywords = true ↔
      ∃ term ∈ survey_terms,
        term.toList <:+: (pyLower (title ++ " " ++ joinSpace keywords)).toList) := by
  have horg_eq : check_if_org major_orgs affiliations
      = org_check major_orgs affiliations := by
    unfold check_if_org org_check
    rcases affiliations with _ | ⟨a, affs⟩
    · simp only [List.isEmpty_nil, if_true]
      symm
      rw [List.any_eq_false]
      intro org horg hin
      have : pyIn (pyLower org) (pyLower (joinSpace [])) = false :=
        pyIn_empty_hay (pyLower_toList_ne_nil (horgs org horg)) rfl
      rw [this] at hin
      cases hin
    · rfl
  have hiff : org_check major_orgs affiliations = true ↔
      ∃ org ∈ major_orgs,
        (pyLower org).toList <:+: (pyLower (joinSpace affiliations)).toList := by
    unfold org_check pyIn
    rw [List.any_eq_true]
    constructor
    · rintro ⟨org, ho, hdec⟩; exact ⟨org, ho, of_decide_eq_true hdec⟩
    · rintro ⟨org, ho, hin⟩; exact ⟨org, ho, decide_eq_true hin⟩
  refine ⟨horg_eq ▸ hiff, rfl, horg_eq, ?_⟩
  unfold check_if_survey pyIn
  rw [List.any_eq_true]
  constructor
  · rintro ⟨term, ht, hdec⟩; exact ⟨term, ht, of_decide_eq_true hdec⟩
  · rintro ⟨term, ht, hin⟩; exact ⟨term, ht, decide_eq_true hin⟩

/-- Witness for C3: "Google Research" matches the Google organization,
"A Survey of RAG" matches the survey term, and an empty affiliation list
gives false. -/
theorem c3_classifier_witness :
    check_if_org ["Google", "Meta"] ["Google Research", "X Lab"] = true ∧
    check_if_org ["Google", "Meta"] [] = false ∧
    check_if_survey "A Survey of RAG" [] = true := by
  have h := c3_classifier ["Google", "Meta"] ["Google Research", "X Lab"]
    "A Survey of RAG" [] (by decide)
  refine ⟨?_, h.2.1, ?_⟩
  · exact h.1.mpr ⟨"Google", by decide, by decide⟩
  · exact h.2.2.2.mpr ⟨"survey", by decide, by decide⟩

/-- The accumulator form of the incremental filter loop. -/
theorem filterRecent_foldl (wm : Int) :
    ∀ (papers : List Paper) (acc : List Paper),
      papers.foldl (fun acc p => if p.date_dt > wm then acc ++ [p] else acc) acc
        = acc ++ papers.filter (fun p => decide (p.date_dt > wm)) := by
  intro papers
  induction papers with
  | nil => intro acc; simp
  | cons p rest ih =>
    intro acc
    by_cases h : p.date_dt > wm
    · rw [List.foldl_cons, if_pos h, ih, List.filter_cons, if_pos (decide_eq_true h)]
      simp
    · rw [List.foldl_cons, if_neg h, ih, List.filter_cons,
        if_neg (by simpa using h)]

/-- C4: the incremental filter keeps exactly the papers whose timestamp is
strictly later than the watermark (equality excluded), as a sublist of the
input (relative order preserved). -/
theorem c4_incremental_filter (wm : Int) (papers : List Paper) :
    filterRecent wm papers = papers.filter (fun p => decide (p.date_dt > wm)) ∧
    (filterRecent wm papers).Sublist papers ∧
    ∀ p, p ∈ filterRecent wm papers ↔ p ∈ papers ∧ p.date_dt > wm := by
  have he : filterRecent wm papers
      = papers.filter (fun p => decide (p.date_dt > wm)) := by
    unfold filterRecent
    simpa using filterRecent_foldl wm papers []
  refine ⟨he, ?_, ?_⟩
  · rw [he]; exact List.filter_sublist papers
  · intro p
    rw [he, List.mem_filter]
    simp

/-- Witness for C4 at the spec's example dates (watermark 10, papers dated
9, 10, 11): only the paper dated 11 survives; the paper dated exactly 10
is excluded. -/
theorem c4_incremental_filter_witness :
    filterRecent 10 [mkPaper "p9" "Nine" 9, mkPaper "p10" "Ten" 10,
        mkPaper "p11" "Eleven" 11] = [mkPaper "p11" "Eleven" 11] ∧
    mkPaper "p10" "Ten" 10 ∉ filterRecent 10 [mkPaper "p9" "Nine" 9,
        mkPaper "p10" "Ten" 10, mkPaper "p11" "Eleven" 11] := by
  have h := c4_incremental_filter 10 [mkPaper "p9" "Nine" 9, mkPaper "p10" "Ten" 10,
    mkPaper "p11" "Eleven" 11]
  constructor
  · rw [h.1]; decide
  · intro hmem
    exact absurd ((h.2.2 _).mp hmem).2 (by decide)

/-- The paper list accumulated by the processing loop: the enrichment of
each surviving paper, in order, after the starting accumulator. -/
theorem processLoop_fst (fetch : String → FetchResult) (major_orgs : List String) :
    ∀ (ps acc : List Paper) (oc sc : Nat),
      (processLoop fetch major_orgs ps acc oc sc).1
        = acc ++ ps.map (enrich fetch major_orgs) := by
  intro ps
  induction ps with
  | nil => intro acc oc sc; simp [processLoop]
  | cons p rest ih =>
    intro acc oc sc
    rw [show processLoop fetch major_orgs (p :: rest) acc oc sc
        = processLoop fetch major_orgs rest (acc ++ [enrich fetch major_orgs p])
            (oc + if (enrich fetch major_orgs p).is_org then 1 else 0)
            (sc + if (enrich fetch major_orgs p).is_survey then 1 else 0) from rfl]
    rw [ih]
    simp

/-- A paper whose fetch fails keeps all default enrichment fields. -/
theorem enrich_failed (fetch : String → FetchResult) (major_orgs : List String)
    (p : Paper) (hf : fetchFailed fetch p) :
    enrich fetch major_orgs p = setDefaults p := by
  rcases hf with hf | ⟨status, soup, hf, hs⟩
  · simp [enrich, setDefaults, hf]
  · simp [enrich, setDefaults, hf, hs]

/-- Membership in the output of process_papers is membership in the
enrichment of the surviving batch (the final sort only permutes). -/
theorem mem_process_papers (fetch : String → FetchResult) (major_orgs : List String)
    (wm : Int) (papers : List Paper) (q : Paper) :
    q ∈ (process_papers fetch major_orgs wm papers).1 ↔
      q ∈ (filterRecent wm papers).map (enrich fetch major_orgs) := by
  unfold process_papers sort_papers
  rw [(List.perm_insertionSort _ _).mem_iff, processLoop_fst]
  simp

/-- C5: a surviving record whose HTML enrichment fails (network exception
or non-success status) still appears in the output of process_papers,
carrying empty authors_info, keywords and affiliations and both flags
false; and every other surviving record's enrichment also appears, so one
record's failure removes nothing from the batch. -/
theorem c5_failure_isolation (fetch : String → FetchResult) (major_orgs : List String)
    (wm : Int) (papers : List Paper) (p : Paper)
    (hp : p ∈ filterRecent wm papers) (hf : fetchFailed fetch p) :
    enrich fetch major_orgs p = setDefaults p ∧
    setDefaults p ∈ (process_papers fetch major_orgs wm papers).1 ∧
    (setDefaults p).authors_info = [] ∧
    (setDefaults p).keywords = [] ∧
    (setDefaults p).affiliations = [] ∧
    (setDefaults p).is_org = false ∧
    (setDefaults p).is_survey = false ∧
    ∀ q ∈ filterRecent wm papers,
      enrich fetch major_orgs q ∈ (process_papers fetch major_orgs wm papers).1 := by
  have he := enrich_failed fetch major_orgs p hf
  refine ⟨he, ?_, rfl, rfl, rfl, rfl, rfl, ?_⟩
  · rw [mem_process_papers, ← he]
    exact List.mem_map_of_mem _ hp
  · intro q hq
    rw [mem_process_papers]
    exact List.mem_map_of_mem _ hq

/-- Witness for C5: paper "a" hits a network exception and paper "c" a
404; both still appear in the output with default fields, and paper "b"
is enriched normally. -/
theorem c5_failure_isolation_witness :
    setDefaults (mkPaper "a" "A" 9)
        ∈ (process_papers wFetch ["MIT"] 5
            [mkPaper "a" "A" 9, mkPaper "b" "B" 9, mkPaper "c" "C" 9]).1 ∧
    enrich wFetch ["MIT"] (mkPaper "b" "B" 9)
        ∈ (process_papers wFetch ["MIT"] 5
            [mkPaper "a" "A" 9, mkPaper "b" "B" 9, mkPaper "c" "C" 9]).1 := by
  have h := c5_failure_isolation wFetch ["MIT"] 5
    [mkPaper "a" "A" 9, mkPaper "b" "B" 9, mkPaper "c" "C" 9]
    (mkPaper "a" "A" 9) (by decide) (Or.inl rfl)
  exact ⟨h.2.1, h.2.2.2.2.2.2.2 (mkPaper "b" "B" 9) (by decide)⟩

theorem lexLE_total : ∀ as bs, lexLE as bs = true ∨ lexLE bs as = true
  | [], _ => Or.inl rfl
  | _ :: _, [] => Or.inr rfl
  | a :: as, b :: bs => by
    rcases Nat.lt_trichotomy a.toNat b.toNat with h | h | h
    · left
      simp [lexLE, h]
    · have h1 : ¬ a.toNat < b.toNat := by omega
      have h2 : ¬ b.toNat < a.toNat := by omega
      rcases lexLE_total as bs with ih | ih
      · left; simp [lexLE, h1, h2, ih]
      · right; simp [lexLE, h1, h2, ih]
    · right
      simp [lexLE, h]

theorem lexLE_trans : ∀ as bs cs, lexLE as bs = true → lexLE bs cs = true →
    lexLE as cs = true
  | [], _, _, _, _ => rfl
  | _ :: _, [], _, h1, _ => by simp [lexLE] at h1
  | _ :: _, _ :: _, [], _, h2 => by simp [lexLE] at h2
  | a :: as, b :: bs, c :: cs, h1, h2 => by
    simp only [lexLE] at h1 h2 ⊢
    rcases Nat.lt_trichotomy a.toNat b.toNat with hab | hab | hab
    · rcases Nat.lt_trichotomy b.toNat c.toNat with hbc | hbc | hbc
      · rw [if_pos (by omega)]
      · rw [if_pos (by omega)]
      · rw [if_neg (by omega), if_pos hbc] at h2
        cases h2
    · rw [if_neg (by omega), if_neg (by omega)] at h1
      rcases Nat.lt_trichotomy b.toNat c.toNat with hbc | hbc | hbc
      · rw [if_pos (by omega)]
      · rw [if_neg (by omega), if_neg (by omega)] at h2
        rw [if_neg (by omega), if_neg (by omega)]
        exact lexLE_trans as bs cs h1 h2
      · rw [if_neg (by omega), if_pos hbc] at h2
        cases h2
    · rw [if_neg (by omega), if_pos hab] at h1
      cases h1

theorem pyStrLE_total (a b : String) : pyStrLE a b = true ∨ pyStrLE b a = true :=
  lexLE_total a.toList b.toList

theorem pyStrLE_trans {a b c : String} (h1 : pyStrLE a b = true)
    (h2 : pyStrLE b c = true) : pyStrLE a c = true :=
  lexLE_trans a.toList b.toList c.toList h1 h2

theorem paper_le_total (a b : Paper) : paper_le a b = true ∨ paper_le b a = true := by
  simp only [paper_le, Bool.or_eq_true, Bool.and_eq_true, decide_eq_true_eq]
  rcases Nat.lt_trichotomy (orgKey a) (orgKey b) with h | h | h
  · exact Or.inl (Or.inl h)
  · rcases Nat.lt_trichotomy (surveyKey a) (surveyKey b) with h2 | h2 | h2
    · exact Or.inl (Or.inr ⟨h, Or.inl h2⟩)
    · rcases pyStrLE_total a.title b.title with h3 | h3
      · exact Or.inl (Or.inr ⟨h, Or.inr ⟨h2, h3⟩⟩)
      · exact Or.inr (Or.inr ⟨h.symm, Or.inr ⟨h2.symm, h3⟩⟩)
    · exact Or.inr (Or.inr ⟨h.symm, Or.inl h2⟩)
  · exact Or.inr (Or.inl h)

theorem paper_le_trans (a b c : Paper) (h1 : paper_le a b = true)
    (h2 : paper_le b c = true) : paper_le a c = true := by
  simp only [paper_le, Bool.or_eq_true, Bool.and_eq_true, decide_eq_true_eq] at h1 h2 ⊢
  rcases h1 with h1 | ⟨h1e, h1s⟩
  · rcases h2 with h2 | ⟨h2e, _⟩
    · exact Or.inl (lt_trans h1 h2)
    · exact Or.inl (h2e ▸ h1)
  · rcases h2 with h2 | ⟨h2e, h2s⟩
    · exact Or.inl (h1e ▸ h2)
    · refine Or.inr ⟨h1e.trans h2e, ?_⟩
      rcases h1s with h1s | ⟨h1se, h1t⟩
      · rcases h2s with h2s | ⟨h2se, _⟩
        · exact Or.inl (lt_trans h1s h2s)
        · exact Or.inl (h2se ▸ h1s)
      · rcases h2s with h2s | ⟨h2se, h2t⟩
        · exact Or.inl (h1se ▸ h2s)
        · exact Or.inr ⟨h1se.trans h2se, pyStrLE_trans h1t h2t⟩

/-- C6: the output of process_papers is sorted under the composite key
(organization flag descending, survey flag descending, title ascending)
and is a permutation of the enriched surviving batch; on the spec's
example (Zeta plain, Alpha organization, Beta survey) the sorting step
returns the titles in the order Alpha, Beta, Zeta. -/
theorem c6_sort_order (fetch : String → FetchResult) (major_orgs : List String)
    (wm : Int) (papers : List Paper) :
    (process_papers fetch major_orgs wm papers).1.Pairwise
        (fun a b => paper_le a b = true) ∧
    (process_papers fetch major_orgs wm papers).1.Perm
        ((filterRecent wm papers).map (enrich fetch major_orgs)) ∧
    (sort_papers [zetaPaper, alphaPaper, betaPaper]).map (fun p => p.title)
        = ["Alpha", "Beta", "Zeta"] := by
  haveI : IsTotal Paper (fun a b => paper_le a b = true) := ⟨paper_le_total⟩
  haveI : IsTrans Paper (fun a b => paper_le a b = true) := ⟨paper_le_trans⟩
  refine ⟨?_, ?_, by decide⟩
  · unfold process_papers sort_papers
    exact List.sorted_insertionSort _ _
  · unfold process_papers sort_papers
    refine (List.perm_insertionSort _ _).trans ?_
    rw [processLoop_fst]
    simp

/-- Witness for C6: the concrete ordering conjunct and sortedness of a
concrete run. -/
theorem c6_sort_order_witness :
    (sort_papers [zetaPaper, alphaPaper, betaPaper]).map (fun p => p.title)
        = ["Alpha", "Beta", "Zeta"] :=
  (c6_sort_order wFetch [] 0 []).2.2

theorem mem_setAdd (s : List String) (x a : String) :
    a ∈ setAdd s x ↔ a ∈ s ∨ a = x := by
  unfold setAdd
  by_cases h : x ∈ s
  · rw [if_pos h]
    constructor
    · exact Or.inl
    · rintro (ha | rfl)
      · exact ha
      · exact h
  · rw [if_neg h]
    simp

theorem setAdd_nodup (s : List String) (x : String) (h : s.Nodup) :
    (setAdd s x).Nodup := by
  unfold setAdd
  by_cases hx : x ∈ s
  · rw [if_pos hx]; exact h
  · rw [if_neg hx]
    refine List.Nodup.append h (List.nodup_singleton x) ?_
    intro a ha hax
    rw [List.mem_singleton] at hax
    subst hax
    exact hx ha

theorem mem_foldl_setAdd : ∀ (l s : List String) (a : String),
    a ∈ l.foldl setAdd s ↔ a ∈ s ∨ a ∈ l := by
  intro l
  induction l with
  | nil => intro s a; simp
  | cons x xs ih =>
    intro s a
    rw [List.foldl_cons, ih, mem_setAdd]
    constructor
    · rintro ((ha | rfl) | ha)
      · exact Or.inl ha
      · exact Or.inr (List.mem_cons_self _ _)
      · exact Or.inr (List.mem_cons_of_mem x ha)
    · rintro (ha | ha)
      · exact Or.inl (Or.inl ha)
      · rcases List.mem_cons.mp ha with rfl | ha
        · exact Or.inl (Or.inr rfl)
        · exact Or.inr ha

theorem foldl_setAdd_nodup : ∀ (l s : List String), s.Nodup →
    (l.foldl setAdd s).Nodup := by
  intro l
  induction l with
  | nil => intro s h; exact h
  | cons x xs ih =>
    intro s h
    rw [List.foldl_cons]
    exact ih _ (setAdd_nodup s x h)

theorem mem_dedup_union (xss : List (List String)) (a : String) :
    a ∈ dedup_union xss ↔ ∃ l ∈ xss, a ∈ l := by
  unfold dedup_union
  suffices h : ∀ (xss : List (List String)) (s : List String),
      a ∈ xss.foldl (fun s l => l.foldl setAdd s) s ↔ a ∈ s ∨ ∃ l ∈ xss, a ∈ l by
    rw [h xss []]
    simp
  intro xss
  induction xss with
  | nil => intro s; simp
  | cons ys yss ih =>
    intro s
    rw [List.foldl_cons, ih, mem_foldl_setAdd]
    constructor
    · rintro ((ha | ha) | ⟨l, hl, ha⟩)
      · exact Or.inl ha
      · exact Or.inr ⟨ys, List.mem_cons_self _ _, ha⟩
      · exact Or.inr ⟨l, List.mem_cons_of_mem _ hl, ha⟩
    · rintro (ha | ⟨l, hl, ha⟩)
      · exact Or.inl (Or.inl ha)
      · rcases List.mem_cons.mp hl with rfl | hl
        · exact Or.inl (Or.inr ha)
        · exact Or.inr ⟨l, hl, ha⟩

theorem dedup_union_nodup (xss : List (List String)) : (dedup_union xss).Nodup := by
  unfold dedup_union
  suffices h : ∀ (xss : List (List String)) (s : List String), s.Nodup →
      (xss.foldl (fun s l => l.foldl setAdd s) s).Nodup from
    h xss [] List.nodup_nil
  intro xss
  induction xss with
  | nil => intro s hs; exact hs
  | cons ys yss ih =>
    intro s hs
    rw [List.foldl_cons]
    exact ih _ (foldl_setAdd_nodup ys s hs)

/-- The enrichment of a paper whose fetch returns 200 and whose document
yields a nonempty author list. -/
theorem enrich_success (fetch : String → FetchResult) (major_orgs : List String)
    (p : Paper) (soup : Soup) (hfetch : fetch p.paper_id = .resp 200 soup)
    (hne : (extract_author_info soup).1 ≠ []) :
    (enrich fetch major_orgs p).affiliations
        = dedup_union (((extract_author_info soup).1).map
            (fun a => a.affiliations)) ∧
    (enrich fetch major_orgs p).is_org
        = org_check major_orgs (enrich fetch major_orgs p).affiliations := by
  have hemp : (extract_author_info soup).1.isEmpty = false := by
    simpa using hne
  by_cases hk : (extract_keywords soup).isEmpty
  · simp [enrich, setDefaults, hfetch, hemp, hk]
  · simp [enrich, setDefaults, hfetch, hemp, hk]

/-- C10: after a successful enrichment with a nonempty author list, the
paper-level affiliations field is the deduplicated union of the authors'
affiliation lists - it contains no duplicates, and it holds exactly the
strings occurring in some author's affiliation list - and the
organization flag is computed from this deduplicated collection. -/
theorem c10_dedup_union (fetch : String → FetchResult) (major_orgs : List String)
    (p : Paper) (soup : Soup) (hfetch : fetch p.paper_id = .resp 200 soup)
    (hne : (extract_author_info soup).1 ≠ []) :
    (enrich fetch major_orgs p).affiliations.Nodup ∧
    (∀ aff, aff ∈ (enrich fetch major_orgs p).affiliations ↔
      ∃ au ∈ (extract_author_info soup).1, aff ∈ au.affiliations) ∧
    (enrich fetch major_orgs p).is_org
        = org_check major_orgs (enrich fetch major_orgs p).affiliations := by
  obtain ⟨haff, horg⟩ := enrich_success fetch major_orgs p soup hfetch hne
  refine ⟨?_, ?_, horg⟩
  · rw [haff]; exact dedup_union_nodup _
  · intro aff
    rw [haff, mem_dedup_union]
    constructor
    · rintro ⟨l, hl, ha⟩
      rcases List.mem_map.mp hl with ⟨au, hau, rfl⟩
      exact ⟨au, hau, ha⟩
    · rintro ⟨au, hau, ha⟩
      exact ⟨au.affiliations, List.mem_map_of_mem _ hau, ha⟩

/-- Witness for C10 at the Alice/Bob document (Alice resolves to MIT, Bob
to the empty string): the paper-level affiliation list is duplicate-free,
contains "MIT", and determines the organization flag. -/
theorem c10_dedup_union_witness :
    (enrich wFetch ["MIT"] (mkPaper "b" "B" 9)).affiliations.Nodup ∧
    "MIT" ∈ (enrich wFetch ["MIT"] (mkPaper "b" "B" 9)).affiliations ∧
    (enrich wFetch ["MIT"] (mkPaper "b" "B" 9)).is_org
        = org_check ["MIT"] (enrich wFetch ["MIT"] (mkPaper "b" "B" 9)).affiliations := by
  have h := c10_dedup_union wFetch ["MIT"] (mkPaper "b" "B" 9) wSoup rfl (by decide)
  refine ⟨h.1, ?_, h.2.2⟩
  exact (h.2.1 "MIT").mpr ⟨(extract_author_info wSoup).1.getD 0 default, by decide, by decide⟩

/-- pySplitComma is String.split on the comma predicate. -/
theorem pySplitComma_eq_split (s : String) :
    pySplitComma s = s.split (· == ',') := by
  rw [String.split_of_valid]
  rfl

/-- Python str.split always returns at least one piece. -/
theorem pySplitComma_ne_nil (s : String) : pySplitComma s ≠ [] := by
  unfold pySplitComma
  intro h
  exact List.splitOnP_ne_nil _ _ (by simpa using h)

/-- With a keywords div present, the result is that div's processed text,
and the meta fallback is never consulted (the pre-filter split list is
never empty, so the fallback test fails). -/
theorem extract_keywords_of_div (soup : Soup) (kwDiv : Node)
    (h : soupFind soup (matchesTagClass "div" "ltx_keywords") = some kwDiv) :
    extract_keywords soup =
      ((pySplitComma (Node.get_text (pruneN ["h6", "strong"] kwDiv))).map pyStrip).filter
        (fun k => k ≠ "") := by
  have hne : ((pySplitComma (Node.get_text (pruneN ["h6", "strong"] kwDiv))).map
      pyStrip) ≠ [] := by
    intro hmap
    exact pySplitComma_ne_nil _ (by simpa using hmap)
  have hemp : ((pySplitComma (Node.get_text (pruneN ["h6", "strong"] kwDiv))).map
      pyStrip).isEmpty = false := by
    simpa using hne
  unfold extract_keywords
  rw [h]
  simp [hemp]

/-- With no keywords div, the result comes from the meta keywords tag when
one exists, and is empty otherwise. -/
theorem extract_keywords_no_div (soup : Soup)
    (h : soupFind soup (matchesTagClass "div" "ltx_keywords") = none) :
    extract_keywords soup =
      match soupFind soup (matchesTagAttr "meta" "name" "keywords") with
      | some metaKw =>
        ((pySplitComma (attrGet metaKw "content" "")).map pyStrip).filter
          (fun k => k ≠ "")
      | none => [] := by
  unfold extract_keywords
  rw [h]
  rcases hm : soupFind soup (matchesTagAttr "meta" "name" "keywords") with _ | m
  · simp
  · simp

/-- C7 counterexample: a document whose keywords region is present but
contains only whitespace, next to a meta keywords tag holding "A,B".  The
region yields no keywords after the split/trim/discard processing, the
meta tag would yield ["A", "B"], yet extract_keywords returns [] - the
fallback is not taken, because the fallback test runs before empty pieces
are discarded and a present region always splits into at least one
(possibly empty) piece. -/
theorem c7_counterexample :
    soupFind kwSoup2 (matchesTagClass "div" "ltx_keywords")
        = some (Node.elem "div" ["ltx_keywords"] [] [Node.text "  "]) ∧
    ((pySplitComma (Node.get_text (pruneN ["h6", "strong"]
        (Node.elem "div" ["ltx_keywords"] [] [Node.text "  "])))).map pyStrip).filter
        (fun k => k ≠ "") = [] ∧
    soupFind kwSoup2 (matchesTagAttr "meta" "name" "keywords")
        = some (Node.elem "meta" [] [("name", "keywords"), ("content", "A,B")] []) ∧
    ((pySplitComma (attrGet (Node.elem "meta" [] [("name", "keywords"),
        ("content", "A,B")] []) "content" "")).map pyStrip).filter (fun k => k ≠ "")
        = ["A", "B"] ∧
    extract_keywords kwSoup2 = [] ∧ extract_keywords kwSoup2 ≠ ["A", "B"] :=
  ⟨rfl, rfl, rfl, rfl, rfl, by decide⟩

/-- C7 (amended): the keyword extractor uses the dedicated keywords region
first (headers stripped, comma-split, trimmed, empties discarded); it
falls back to the document metadata tag named "keywords", processed the
same way, only when that region is absent (a present region yielding no
keywords still suppresses the fallback); a region containing "A, B, C"
yields exactly ["A", "B", "C"]; and the result never contains an empty
string - absence of both sources gives the empty list, not an error. -/
theorem c7_keyword_fallback :
    (∀ (soup : Soup) (m : Node),
       soupFind soup (matchesTagClass "div" "ltx_keywords") = none →
       soupFind soup (matchesTagAttr "meta" "name" "keywords") = some m →
       extract_keywords soup =
         ((pySplitComma (attrGet m "content" "")).map pyStrip).filter
           (fun k => k ≠ "")) ∧
    extract_keywords kwSoup = ["A", "B", "C"] ∧
    (∀ (soup : Soup) (kwDiv : Node),
       soupFind soup (matchesTagClass "div" "ltx_keywords") = some kwDiv →
       extract_keywords soup =
         ((pySplitComma (Node.get_text (pruneN ["h6", "strong"] kwDiv))).map
            pyStrip).filter (fun k => k ≠ "")) ∧
    (∀ (soup : Soup) (k : String), k ∈ extract_keywords soup → k ≠ "") := by
  refine ⟨?_, rfl, ?_, ?_⟩
  · intro soup m hd hm
    rw [extract_keywords_no_div soup hd, hm]
  · intro soup kwDiv h
    exact extract_keywords_of_div soup kwDiv h
  · intro soup k hk
    rcases hd : soupFind soup (matchesTagClass "div" "ltx_keywords") with _ | kwDiv
    · rw [extract_keywords_no_div soup hd] at hk
      rcases hm : soupFind soup (matchesTagAttr "meta" "name" "keywords") with _ | m
      · simp only [hm] at hk
        exact absurd hk (List.not_mem_nil k)
      · simp only [hm] at hk
        simpa using (List.mem_filter.mp hk).2
    · rw [extract_keywords_of_div soup kwDiv hd] at hk
      simpa using (List.mem_filter.mp hk).2

/-- Witness for C7 (amended): the meta fallback fires on a document with
no keywords region, and the "A, B, C" round trip holds. -/
theorem c7_keyword_fallback_witness :
    extract_keywords kwSoup3 = ["A", "B"] ∧
    extract_keywords kwSoup = ["A", "B", "C"] := by
  have h := c7_keyword_fallback
  constructor
  · rw [h.1 kwSoup3
      (Node.elem "meta" [] [("name", "keywords"), ("content", " A , B ")] []) rfl rfl]
    decide
  · exact h.2.1

/-- No group send succeeding leaves the watermark file untouched. -/
theorem sendLoop_no_success (convert : String → Option String)
    (sendAttempt : String → Nat → Bool) (today : String) :
    ∀ (ps : List String) (file : Option String),
      (∀ p ∈ ps, send_with_retry (sendAttempt p) = false) →
      (sendLoop convert sendAttempt today ps file).lastEmailFile = file := by
  intro ps
  induction ps with
  | nil => intro file _; rfl
  | cons p rest ih =>
    intro file h
    unfold sendLoop
    rcases hc : convert p with _ | html
    · simp only [hc]
      exact ih file (fun q hq => h q (List.mem_cons_of_mem p hq))
    · simp only [hc, h p (List.mem_cons_self p rest)]
      rfl

/-- The watermark file ends as its starting value or as today's date:
the loop writes nothing else. -/
theorem sendLoop_file_cases (convert : String → Option String)
    (sendAttempt : String → Nat → Bool) (today : String) :
    ∀ (ps : List String) (file : Option String),
      (sendLoop convert sendAttempt today ps file).lastEmailFile = file ∨
      (sendLoop convert sendAttempt today ps file).lastEmailFile = some today := by
  intro ps
  induction ps with
  | nil => intro file; exact Or.inl rfl
  | cons p rest ih =>
    intro file
    unfold sendLoop
    rcases hc : convert p with _ | html
    · simp only [hc]
      exact ih file
    · simp only [hc]
      by_cases hs : send_with_retry (sendAttempt p) = true
      · rw [if_pos hs]
        rcases ih (some today) with h | h
        · exact Or.inr h
        · exact Or.inr h
      · rw [if_neg hs]
        exact Or.inl rfl

/-- A run that does not raise and reaches at least one convertible group
ends with the watermark set to today. -/
theorem sendLoop_complete_success (convert : String → Option String)
    (sendAttempt : String → Nat → Bool) (today : String) :
    ∀ (ps : List String) (file : Option String),
      (sendLoop convert sendAttempt today ps file).raised = false →
      (∃ p ∈ ps, convert p ≠ none) →
      (sendLoop convert sendAttempt today ps file).lastEmailFile = some today := by
  intro ps
  induction ps with
  | nil =>
    rintro file _ ⟨p, hp, _⟩
    exact absurd hp (List.not_mem_nil p)
  | cons p rest ih =>
    intro file hr hex
    unfold sendLoop at hr ⊢
    rcases hc : convert p with _ | html
    · simp only [hc] at hr ⊢
      rcases hex with ⟨q, hq, hcq⟩
      rcases List.mem_cons.mp hq with rfl | hq
      · exact absurd hc hcq
      · exact ih file hr ⟨q, hq, hcq⟩
    · simp only [hc] at hr ⊢
      by_cases hs : send_with_retry (sendAttempt p) = true
      · rw [if_pos hs] at hr ⊢
        rcases sendLoop_file_cases convert sendAttempt today rest (some today) with h | h
        · exact h
        · exact h
      · rw [if_neg hs] at hr
        cases hr

/-- C8 counterexample: two date groups, the first send succeeds, the
second fails after exhausting its retries.  The run's send step fails
(send_daily_update raises), yet the watermark file was already advanced
to today by the first group, so it is not left unchanged and the next run
does not re-attempt the first group's date range. -/
theorem c8_counterexample :
    (send_daily_update wConvert wSendAttempt "2024-06-01" ["a", "b"]
        (some "2024-05-30")).raised = true ∧
    (send_daily_update wConvert wSendAttempt "2024-06-01" ["a", "b"]
        (some "2024-05-30")).lastEmailFile = some "2024-06-01" ∧
    some "2024-06-01" ≠ some "2024-05-30" :=
  ⟨rfl, rfl, by decide⟩

/-- C8 (amended): the watermark is written only by successful group
sends, and each write stores today's date.  In a run where no group send
succeeds - in particular when the very first attempted group fails after
exhausting retries - the file is left unchanged, so the next run
re-attempts the same range; in every run the file ends as either its
original value or today's date; and a run that completes without raising
and sent at least one group ends with the watermark set to today. -/
theorem c8_watermark (convert : String → Option String)
    (sendAttempt : String → Nat → Bool) (today : String)
    (md_paths : List String) (file : Option String) :
    ((∀ p ∈ md_paths, send_with_retry (sendAttempt p) = false) →
      (send_daily_update convert sendAttempt today md_paths file).lastEmailFile
        = file) ∧
    ((send_daily_update convert sendAttempt today md_paths file).lastEmailFile = file ∨
      (send_daily_update convert sendAttempt today md_paths file).lastEmailFile
        = some today) ∧
    (((send_daily_update convert sendAttempt today md_paths file).raised = false ∧
        ∃ p ∈ md_paths, convert p ≠ none) →
      (send_daily_update convert sendAttempt today md_paths file).lastEmailFile
        = some today) := by
  unfold send_daily_update
  have hperm := List.perm_insertionSort
    (fun a b : String => pyStrLE a b = true) md_paths
  refine ⟨?_, sendLoop_file_cases convert sendAttempt today _ file, ?_⟩
  · intro h
    exact sendLoop_no_success convert sendAttempt today _ file
      (fun p hp => h p (hperm.mem_iff.mp hp))
  · rintro ⟨hr, p, hp, hc⟩
    exact sendLoop_complete_success convert sendAttempt today _ file hr
      ⟨p, hperm.mem_iff.mpr hp, hc⟩

/-- Witness for C8 (amended): a fully failing send leaves the file at its
old value; a fully succeeding single-group send sets it to today. -/
theorem c8_watermark_witness :
    (send_daily_update wConvert failSendAttempt "2024-06-01" ["a"]
        (some "2024-05-30")).lastEmailFile = some "2024-05-30" ∧
    (send_daily_update wConvert wSendAttempt "2024-06-01" ["a"]
        (some "2024-05-30")).lastEmailFile = some "2024-06-01" := by
  have h1 := c8_watermark wConvert failSendAttempt "2024-06-01" ["a"] (some "2024-05-30")
  have h2 := c8_watermark wConvert wSendAttempt "2024-06-01" ["a"] (some "2024-05-30")
  constructor
  · exact h1.1 (by decide)
  · exact h2.2.2 ⟨rfl, "a", by decide, by decide⟩

end RagTracker
